import Mathlib

/-!
Verification of the Privexi vault core against its specification.

The Python sources are shallowly embedded: byte strings become `List Nat`
(one entry per byte), the cryptographic library primitives (PBKDF2,
AES-GCM, Fernet, SHA-256) become explicit function parameters, file-system
state becomes explicit records, and each Python function becomes a Lean
function over those.
-/

/-- Byte strings are lists of naturals (one per byte). -/
abbrev Bytes := List Nat

/-- Python slice `data[a:b]` on a byte string (clamping, like Python). -/
def pySlice (data : Bytes) (a b : Nat) : Bytes :=
  (data.drop a).take (b - a)

namespace UsbKeyManager

/-! Embedding of `src/privexi/usb_key_manager.py`.

`PBKDF2HMAC.derive` is abstracted as a parameter `deriveKeyF`
(deterministic: same secret and salt give the same key), and
`AESGCM.encrypt` / `AESGCM.decrypt` as parameters `encryptF` / `decryptF`
(arguments: key, nonce, payload-or-ciphertext, associated data); a
`decryptF` result of `none` stands for the `InvalidTag` exception, which
the source catches and converts to `None`. -/

/-- `VERSION = b"\x03"` -/
def VERSION : Bytes := [3]

def SALT_SIZE : Nat := 32

def AES_KEY_SIZE : Nat := 32

def NONCE_SIZE : Nat := 12

def PBKDF2_ITERATIONS : Nat := 480000

/-- `len(ct).to_bytes(2, "big")` (the source raises, hence returns `None`,
when the length exceeds two bytes; hypotheses below keep it in range). -/
def toBytes2BE (n : Nat) : Bytes := [n / 256 % 256, n % 256]

/-- `int.from_bytes(data, "big")` for a two-byte (or shorter) string. -/
def fromBytes2BE (data : Bytes) : Nat := data.foldl (fun acc b => acc * 256 + b) 0

/-- The blob built and written by `create_usb_key` (lines 49-61):
`VERSION + salt_pw + salt_recovery + nonce + len(ct_pw).to_bytes(2,"big") + ct_pw + ct_recovery`,
where `ct_pw`/`ct_recovery` wrap `VERSION + master_key` under the
password- and recovery-derived keys, both with the shared nonce, each with
its own salt as associated data. -/
def create_usb_key_blob
    (deriveKeyF : String → Bytes → Bytes)
    (encryptF : Bytes → Bytes → Bytes → Bytes → Bytes)
    (saltPw saltRecovery nonce masterKey : Bytes)
    (password recoveryCode : String) : Bytes :=
  let keyPw := deriveKeyF password saltPw
  let keyRecovery := deriveKeyF recoveryCode saltRecovery
  let payload := VERSION ++ masterKey
  let ctPw := encryptF keyPw nonce payload saltPw
  let ctRecovery := encryptF keyRecovery nonce payload saltRecovery
  VERSION ++ (saltPw ++ (saltRecovery ++ (nonce ++
    (toBytes2BE ctPw.length ++ (ctPw ++ ctRecovery)))))

/-- The fields `load_usb_key` slices out of the blob (lines 89-106). -/
structure BlobParts where
  version : Bytes
  saltPw : Bytes
  saltRecovery : Bytes
  nonce : Bytes
  ctPw : Bytes
  ctRecovery : Bytes
  deriving DecidableEq, Repr

/-- The parsing arithmetic of `load_usb_key` (lines 89-106): offsets
1, 1+32, 1+32+32, 1+64+12, then a two-byte big-endian length prefix for
`ct_pw`; `ct_recovery` is the rest. -/
def parseBlob (data : Bytes) : BlobParts :=
  let version := pySlice data 0 1
  let saltPw := pySlice data 1 (1 + SALT_SIZE)
  let saltRecovery := pySlice data (1 + SALT_SIZE) (1 + 2 * SALT_SIZE)
  let nonce := pySlice data (1 + 2 * SALT_SIZE) (1 + 2 * SALT_SIZE + NONCE_SIZE)
  let off := 1 + 2 * SALT_SIZE + NONCE_SIZE
  let ctLen := fromBytes2BE (pySlice data off (off + 2))
  let ctPw := pySlice data (off + 2) (off + 2 + ctLen)
  let ctRecovery := data.drop (off + 2 + ctLen)
  ⟨version, saltPw, saltRecovery, nonce, ctPw, ctRecovery⟩

/-- `load_usb_key(usb_path, secret, is_recovery)` (lines 78-125).
`file = none` models a missing key file. Every failure branch of the
source — missing file, version mismatch, AEAD authentication failure,
payload-version mismatch — returns `None`; a raised exception is caught
and also becomes `None`. -/
def load_usb_key
    (deriveKeyF : String → Bytes → Bytes)
    (decryptF : Bytes → Bytes → Bytes → Bytes → Option Bytes)
    (file : Option Bytes) (secret : String) (isRecovery : Bool) : Option Bytes :=
  match file with
  | none => none
  | some data =>
    let p := parseBlob data
    if p.version ≠ VERSION then none
    else
      let salt := if isRecovery then p.saltRecovery else p.saltPw
      let ciphertext := if isRecovery then p.ctRecovery else p.ctPw
      let key := deriveKeyF secret salt
      match decryptF key p.nonce ciphertext salt with
      | none => none
      | some payload =>
        if payload.take 1 ≠ VERSION then none
        else some (pySlice payload 1 (1 + AES_KEY_SIZE))

/-- Two-byte big-endian length prefixes of in-range lengths round-trip. -/
theorem fromBytes2BE_toBytes2BE (L : Nat) (h : L < 65536) :
    fromBytes2BE (toBytes2BE L) = L := by
  simp [fromBytes2BE, toBytes2BE]
  omega

/-- The slicing in `load_usb_key` exactly inverts the concatenation in
`create_usb_key` when the fields have their documented sizes. -/
theorem parseBlob_append (sp sr n lb cp cr : Bytes)
    (hsp : sp.length = 32) (hsr : sr.length = 32) (hn : n.length = 12)
    (hl : fromBytes2BE ((lb ++ (cp ++ cr)).take 2) = cp.length)
    (hlb : lb.length = 2) :
    parseBlob ([3] ++ (sp ++ (sr ++ (n ++ (lb ++ (cp ++ cr)))))) =
      ⟨[3], sp, sr, n, cp, cr⟩ := by
  set d : Bytes := [3] ++ (sp ++ (sr ++ (n ++ (lb ++ (cp ++ cr))))) with hd
  have h1 : d.drop 1 = sp ++ (sr ++ (n ++ (lb ++ (cp ++ cr)))) := rfl
  have h33 : d.drop 33 = sr ++ (n ++ (lb ++ (cp ++ cr))) := by
    have e : d.drop 33 = (d.drop 1).drop 32 := by
      rw [List.drop_drop]
    rw [e, h1]
    exact List.drop_left' hsp
  have h65 : d.drop 65 = n ++ (lb ++ (cp ++ cr)) := by
    have e : d.drop 65 = (d.drop 33).drop 32 := by
      rw [List.drop_drop]
    rw [e, h33]
    exact List.drop_left' hsr
  have h77 : d.drop 77 = lb ++ (cp ++ cr) := by
    have e : d.drop 77 = (d.drop 65).drop 12 := by
      rw [List.drop_drop]
    rw [e, h65]
    exact List.drop_left' hn
  have h79 : d.drop 79 = cp ++ cr := by
    have e : d.drop 79 = (d.drop 77).drop 2 := by
      rw [List.drop_drop]
    rw [e, h77]
    exact List.drop_left' hlb
  have hver : pySlice d 0 1 = [3] := by
    simp only [pySlice, List.drop_zero, hd]
    exact List.take_left' rfl
  have hcplen : fromBytes2BE (pySlice d 77 79) = cp.length := by
    have e : pySlice d 77 79 = (lb ++ (cp ++ cr)).take 2 := by
      simp only [pySlice, h77]
    rw [e, hl]
  simp only [parseBlob, SALT_SIZE, NONCE_SIZE]
  norm_num
  refine ⟨hver, ?_, ?_, ?_, ?_, ?_⟩
  · simp only [pySlice, h1]
    exact List.take_left' hsp
  · simp only [pySlice]
    norm_num
    rw [show (33 : Nat) = 1 + 32 by norm_num] at h33
    rw [h33]
    exact List.take_left' hsr
  · simp only [pySlice]
    norm_num
    rw [show (65 : Nat) = 1 + 32 + 32 by norm_num] at h65
    rw [h65]
    exact List.take_left' hn
  · rw [show fromBytes2BE (pySlice d (1 + 32 + 32 + 12) (1 + 32 + 32 + 12 + 2)) =
        cp.length from by norm_num; exact hcplen]
    simp only [pySlice]
    norm_num
    rw [show (79 : Nat) = 1 + 32 + 32 + 12 + 2 by norm_num] at h79
    rw [h79]
    exact List.take_left' rfl
  · rw [show fromBytes2BE (pySlice d (1 + 32 + 32 + 12) (1 + 32 + 32 + 12 + 2)) =
        cp.length from by norm_num; exact hcplen]
    have e : d.drop (1 + 32 + 32 + 12 + 2 + cp.length) = (d.drop 79).drop cp.length := by
      rw [List.drop_drop]
    rw [e, h79]
    exact List.drop_left' rfl

/-- `load_usb_key` on a size-correct blob reduces to key derivation plus
AEAD decryption of the half selected by `is_recovery`. -/
theorem load_usb_key_parsed
    (deriveKeyF : String → Bytes → Bytes)
    (decryptF : Bytes → Bytes → Bytes → Bytes → Option Bytes)
    (sp sr n lb cp cr : Bytes)
    (hsp : sp.length = 32) (hsr : sr.length = 32) (hn : n.length = 12)
    (hl : fromBytes2BE ((lb ++ (cp ++ cr)).take 2) = cp.length)
    (hlb : lb.length = 2) (secret : String) (b : Bool) :
    load_usb_key deriveKeyF decryptF
        (some ([3] ++ (sp ++ (sr ++ (n ++ (lb ++ (cp ++ cr))))))) secret b =
      match decryptF (deriveKeyF secret (if b then sr else sp)) n
          (if b then cr else cp) (if b then sr else sp) with
      | none => none
      | some payload =>
          if payload.take 1 ≠ VERSION then none
          else some (pySlice payload 1 (1 + AES_KEY_SIZE)) := by
  simp only [load_usb_key]
  rw [parseBlob_append sp sr n lb cp cr hsp hsr hn hl hlb]
  simp [VERSION]

/-- **C1**: for every password and recovery code used at enrollment, the
blob written by `create_usb_key` opens under the password with
`is_recovery = false` and under the recovery code with
`is_recovery = true`, and both openings return exactly the 32-byte master
key generated at creation. -/
theorem privexi_c1_create_open_roundtrip
    (deriveKeyF : String → Bytes → Bytes)
    (encryptF : Bytes → Bytes → Bytes → Bytes → Bytes)
    (decryptF : Bytes → Bytes → Bytes → Bytes → Option Bytes)
    (hdec : ∀ k n p a, decryptF k n (encryptF k n p a) a = some p)
    (saltPw saltRecovery nonce masterKey : Bytes)
    (password recoveryCode : String)
    (hsp : saltPw.length = 32) (hsr : saltRecovery.length = 32)
    (hn : nonce.length = 12) (hmk : masterKey.length = 32)
    (hct : (encryptF (deriveKeyF password saltPw) nonce (VERSION ++ masterKey)
        saltPw).length < 65536) :
    load_usb_key deriveKeyF decryptF
        (some (create_usb_key_blob deriveKeyF encryptF
          saltPw saltRecovery nonce masterKey password recoveryCode))
        password false = some masterKey ∧
    load_usb_key deriveKeyF decryptF
        (some (create_usb_key_blob deriveKeyF encryptF
          saltPw saltRecovery nonce masterKey password recoveryCode))
        recoveryCode true = some masterKey := by
  have hslice : pySlice (VERSION ++ masterKey) 1 (1 + AES_KEY_SIZE) = masterKey := by
    simp only [pySlice, VERSION, AES_KEY_SIZE, List.cons_append, List.nil_append,
      List.drop_succ_cons, List.drop_zero]
    rw [show 1 + 32 - 1 = 32 by norm_num, ← hmk, List.take_length]
  have hblob : create_usb_key_blob deriveKeyF encryptF
      saltPw saltRecovery nonce masterKey password recoveryCode =
      [3] ++ (saltPw ++ (saltRecovery ++ (nonce ++
        (toBytes2BE (encryptF (deriveKeyF password saltPw) nonce
            (VERSION ++ masterKey) saltPw).length ++
          ((encryptF (deriveKeyF password saltPw) nonce (VERSION ++ masterKey) saltPw) ++
            (encryptF (deriveKeyF recoveryCode saltRecovery) nonce
              (VERSION ++ masterKey) saltRecovery)))))) := by
    simp only [create_usb_key_blob, VERSION]
  have hl : fromBytes2BE
      ((toBytes2BE (encryptF (deriveKeyF password saltPw) nonce
          (VERSION ++ masterKey) saltPw).length ++
        ((encryptF (deriveKeyF password saltPw) nonce (VERSION ++ masterKey) saltPw) ++
          (encryptF (deriveKeyF recoveryCode saltRecovery) nonce
            (VERSION ++ masterKey) saltRecovery))).take 2) =
      (encryptF (deriveKeyF password saltPw) nonce (VERSION ++ masterKey) saltPw).length := by
    rw [List.take_left' (show (toBytes2BE _).length = 2 from rfl)]
    exact fromBytes2BE_toBytes2BE _ hct
  constructor
  · rw [hblob, load_usb_key_parsed deriveKeyF decryptF _ _ _ _ _ _ hsp hsr hn hl rfl]
    simp only [Bool.false_eq_true, if_false, hdec]
    rw [if_neg (by simp [VERSION])]
    rw [hslice]
  · rw [hblob, load_usb_key_parsed deriveKeyF decryptF _ _ _ _ _ _ hsp hsr hn hl rfl]
    simp only [if_true, hdec]
    rw [if_neg (by simp [VERSION])]
    rw [hslice]

/-- Witness for C1: a concrete enrollment (identity AEAD model, concrete
salts, nonce and master key) round-trips on both paths. -/
theorem privexi_c1_witness :
    load_usb_key (fun _ s => s) (fun _ _ c _ => some c)
        (some (create_usb_key_blob (fun _ s => s) (fun _ _ p _ => p)
          (List.replicate 32 7) (List.replicate 32 9) (List.replicate 12 1)
          (List.replicate 32 5) "pw" "RECOVERY"))
        "pw" false = some (List.replicate 32 5) ∧
    load_usb_key (fun _ s => s) (fun _ _ c _ => some c)
        (some (create_usb_key_blob (fun _ s => s) (fun _ _ p _ => p)
          (List.replicate 32 7) (List.replicate 32 9) (List.replicate 12 1)
          (List.replicate 32 5) "pw" "RECOVERY"))
        "RECOVERY" true = some (List.replicate 32 5) :=
  privexi_c1_create_open_roundtrip (fun _ s => s) (fun _ _ p _ => p)
    (fun _ _ c _ => some c) (fun _ _ _ _ => rfl)
    (List.replicate 32 7) (List.replicate 32 9) (List.replicate 12 1)
    (List.replicate 32 5) "pw" "RECOVERY"
    (by simp) (by simp) (by simp) (by simp) (by simp [VERSION])

/-- The AEAD decryption that `load_usb_key` attempts on blob `d` with
secret `secret` on path `b` (password when `b = false`, recovery when
`b = true`). -/
def attemptedDecrypt
    (deriveKeyF : String → Bytes → Bytes)
    (decryptF : Bytes → Bytes → Bytes → Bytes → Option Bytes)
    (d : Bytes) (secret : String) (b : Bool) : Option Bytes :=
  let p := parseBlob d
  let salt := if b then p.saltRecovery else p.saltPw
  let ciphertext := if b then p.ctRecovery else p.ctPw
  decryptF (deriveKeyF secret salt) p.nonce ciphertext salt

/-- **C6**: every failure cause of `load_usb_key` — missing file,
malformed/truncated blob or unsupported blob version, AEAD authentication
failure, payload-version mismatch — yields the single opaque outcome
`none`, and any two failing invocations (in particular one on the
password path and one on the recovery path) return identical values. -/
theorem privexi_c6_load_failure_uniform
    (deriveKeyF : String → Bytes → Bytes)
    (decryptF : Bytes → Bytes → Bytes → Bytes → Option Bytes) :
    (∀ s b, load_usb_key deriveKeyF decryptF none s b = none) ∧
    (∀ d s b, (parseBlob d).version ≠ VERSION →
      load_usb_key deriveKeyF decryptF (some d) s b = none) ∧
    (∀ d s b, attemptedDecrypt deriveKeyF decryptF d s b = none →
      load_usb_key deriveKeyF decryptF (some d) s b = none) ∧
    (∀ d s b payload, attemptedDecrypt deriveKeyF decryptF d s b = some payload →
      payload.take 1 ≠ VERSION →
      load_usb_key deriveKeyF decryptF (some d) s b = none) ∧
    (∀ f₁ f₂ s₁ s₂ b₁ b₂,
      load_usb_key deriveKeyF decryptF f₁ s₁ b₁ = none →
      load_usb_key deriveKeyF decryptF f₂ s₂ b₂ = none →
      load_usb_key deriveKeyF decryptF f₁ s₁ b₁ =
        load_usb_key deriveKeyF decryptF f₂ s₂ b₂) := by
  refine ⟨fun s b => rfl, fun d s b hv => ?_, fun d s b hdec => ?_,
    fun d s b payload hdec hv => ?_, fun f₁ f₂ s₁ s₂ b₁ b₂ h₁ h₂ => by rw [h₁, h₂]⟩
  · simp only [load_usb_key]
    rw [if_pos hv]
  · simp only [load_usb_key]
    by_cases hv : (parseBlob d).version ≠ VERSION
    · rw [if_pos hv]
    · rw [if_neg hv]
      simp only [attemptedDecrypt] at hdec
      rw [hdec]
  · simp only [load_usb_key]
    by_cases hver : (parseBlob d).version ≠ VERSION
    · rw [if_pos hver]
    · rw [if_neg hver]
      simp only [attemptedDecrypt] at hdec
      rw [hdec]
      simp [hv]

/-- Witness for C6: concrete failing inputs for each cause — missing
file, empty (truncated) blob, authentication failure, payload-version
mismatch — all return `none`, identically across the two paths. -/
theorem privexi_c6_witness :
    load_usb_key (fun _ s => s) (fun _ _ _ _ => none) none "x" false = none ∧
    load_usb_key (fun _ s => s) (fun _ _ _ _ => none) (some []) "x" true = none ∧
    load_usb_key (fun _ s => s) (fun _ _ _ _ => none) (some [3]) "x" false = none ∧
    load_usb_key (fun _ s => s) (fun _ _ _ _ => some []) (some [3]) "x" true = none ∧
    load_usb_key (fun _ s => s) (fun _ _ _ _ => some []) (some []) "a" false =
      load_usb_key (fun _ s => s) (fun _ _ _ _ => some []) (some [3]) "b" true := by
  refine ⟨(privexi_c6_load_failure_uniform (fun _ s => s) (fun _ _ _ _ => none)).1 "x" false,
    (privexi_c6_load_failure_uniform (fun _ s => s) (fun _ _ _ _ => none)).2.1 [] "x" true
      (by decide),
    (privexi_c6_load_failure_uniform (fun _ s => s) (fun _ _ _ _ => none)).2.2.1 [3] "x" false
      rfl,
    (privexi_c6_load_failure_uniform (fun _ s => s) (fun _ _ _ _ => some [])).2.2.2.1 [3] "x"
      true [] rfl (by decide),
    ?_⟩
  · exact (privexi_c6_load_failure_uniform (fun _ s => s) (fun _ _ _ _ => some [])).2.2.2.2
      (some []) (some [3]) "a" "b" false true (by decide) (by decide)

end UsbKeyManager

namespace VaultManager

/-! Embedding of `src/privexi/vault_manager.py`.

The Fernet session cipher (`self._crypto.encrypt_file` /
`self._crypto.decrypt_file`) is abstracted as parameters `encryptF` /
`decryptF` (a `decryptF` result of `none` models `InvalidToken`), the
SHA-256 hex digests (`get_file_integrity_hash` and the `hashlib.sha256`
call that derives the vault filename) as parameters `hashHex` /
`sha256hex`, and `json.dumps` as a parameter `serializeF`. The vault
index — a Python `dict` — becomes an insertion-ordered association list,
and `time.time()` timestamps become naturals. -/

/-- One index record (the JSON object stored under a `vault_id`);
`sha256 = none` models an entry whose `"sha256"` field is absent. -/
structure Meta where
  original_name : String
  vault_file : String
  added_at : Nat
  size_bytes : Nat
  sha256 : Option String
  deriving DecidableEq, Repr

/-- `d.get(k)` on an insertion-ordered Python dict. -/
def dictGet {β : Type} (d : List (String × β)) (k : String) : Option β :=
  match d with
  | [] => none
  | p :: rest => if p.1 = k then some p.2 else dictGet rest k

/-- `d[k] = v` on an insertion-ordered Python dict: replace in place when
the key exists, append otherwise. The same shape models
`Path.write_bytes`, which overwrites an existing file. -/
def dictPut {β : Type} (d : List (String × β)) (k : String) (v : β) : List (String × β) :=
  match d with
  | [] => [(k, v)]
  | p :: rest => if p.1 = k then (k, v) :: rest else p :: dictPut rest k v

/-- After `d[k] = v`, `d.get(k)` returns `v`. -/
theorem dictGet_dictPut {β : Type} (d : List (String × β)) (k : String) (v : β) :
    dictGet (dictPut d k v) k = some v := by
  induction d with
  | nil => simp [dictGet, dictPut]
  | cons p rest ih =>
    by_cases h : p.1 = k
    · simp [dictGet, dictPut, h]
    · simp [dictGet, dictPut, h, ih]

/-- One row of the value `list_files` returns. -/
structure ListedEntry where
  vault_id : String
  original_name : String
  added_at : Nat
  size_bytes : Nat
  sha256 : String
  deriving DecidableEq, Repr

/-- The dictionary `list_files` builds for an index item (lines 128-134). -/
def toListedEntry (p : String × Meta) : ListedEntry :=
  ⟨p.1, p.2.original_name, p.2.added_at, p.2.size_bytes, p.2.sha256.getD ""⟩

/-- `list_files()` (lines 118-137): keep the index entries whose backing
vault file still exists on disk (`disk` lists the filenames present in
`VAULT_DIR`), then sort by `added_at`, most recent first (Python's stable
`list.sort(key=..., reverse=True)` is modelled by a stable merge sort). -/
def list_files (index : List (String × Meta)) (disk : List String) : List ListedEntry :=
  let results := (index.filter fun p => decide (p.2.vault_file ∈ disk)).map toListedEntry
  results.mergeSort fun a b => decide (b.added_at ≤ a.added_at)

end VaultManager

namespace VaultManager

/-- **C7**: `list_files` returns exactly the index entries whose backing
ciphertext file exists on disk — entries with a missing backing file are
omitted — sorted by `added_at`, descending. -/
theorem privexi_c7_list_files (index : List (String × Meta)) (disk : List String) :
    ((list_files index disk).Pairwise fun a b => b.added_at ≤ a.added_at) ∧
    (list_files index disk).Perm
      ((index.filter fun p => decide (p.2.vault_file ∈ disk)).map toListedEntry) ∧
    (∀ e, e ∈ list_files index disk ↔
      ∃ p, p ∈ index ∧ p.2.vault_file ∈ disk ∧ e = toListedEntry p) := by
  have hperm : (list_files index disk).Perm
      ((index.filter fun p => decide (p.2.vault_file ∈ disk)).map toListedEntry) :=
    List.mergeSort_perm _ _
  refine ⟨?_, hperm, ?_⟩
  · have hs := @List.sorted_mergeSort ListedEntry
      (fun a b : ListedEntry => decide (b.added_at ≤ a.added_at))
      (fun a b c hab hbc => by
        simp only [decide_eq_true_eq] at *
        omega)
      (fun a b => by
        simp only [Bool.or_eq_true, decide_eq_true_eq]
        omega)
      ((index.filter fun p => decide (p.2.vault_file ∈ disk)).map toListedEntry)
    exact hs.imp (by simp only [decide_eq_true_eq]; exact fun h => h)
  · intro e
    rw [hperm.mem_iff, List.mem_map]
    constructor
    · rintro ⟨p, hp, rfl⟩
      rw [List.mem_filter] at hp
      exact ⟨p, hp.1, by simpa using hp.2, rfl⟩
    · rintro ⟨p, hp, hdisk, rfl⟩
      exact ⟨p, List.mem_filter.mpr ⟨hp, by simpa using hdisk⟩, rfl⟩

/-- The full storage-engine state `list_files` can see: the in-memory
index, the vault files on disk (name and ciphertext), and the encrypted
index file on disk. -/
structure VmState where
  index : List (String × Meta)
  vaultFiles : List (String × Bytes)
  indexFile : Option Bytes
  deriving DecidableEq, Repr

/-- `list_files` as a state transformer: the method only reads
`self._index` and queries file existence; it contains no assignment to
the index, no `_save_index` call, and no file write or delete. -/
def list_files_st (s : VmState) : List ListedEntry × VmState :=
  (list_files s.index (s.vaultFiles.map Prod.fst), s)

/-- **C10**: `list_files` never mutates anything: the in-memory index,
the on-disk index file and all vault files are unchanged — entries whose
backing file is missing stay in the index. -/
theorem privexi_c10_list_files_pure (s : VmState) :
    (list_files_st s).2 = s ∧
    (list_files_st s).2.index = s.index ∧
    (list_files_st s).2.vaultFiles = s.vaultFiles ∧
    (list_files_st s).2.indexFile = s.indexFile ∧
    (∀ p, p ∈ s.index → p ∈ (list_files_st s).2.index) ∧
    (list_files_st s).1 = list_files s.index (s.vaultFiles.map Prod.fst) :=
  ⟨rfl, rfl, rfl, rfl, fun _ h => h, rfl⟩

end VaultManager

namespace VaultManager

/-- Index of the last `'.'` in a character list (Python `str.rfind('.')`,
as an `Option`). -/
def lastDotIdx : List Char → Option Nat
  | [] => none
  | c :: cs =>
    match lastDotIdx cs with
    | some i => some (i + 1)
    | none => if c = '.' then some 0 else none

/-- `PurePath.suffix` of a file name: the part from the last dot on,
provided that dot is neither the first nor the last character. -/
def pathSuffix (name : String) : String :=
  match lastDotIdx name.data with
  | some i => if 0 < i ∧ i + 1 < name.data.length then ⟨name.data.drop i⟩ else ""
  | none => ""

/-- `PurePath.stem` of a file name: the name without `pathSuffix`. -/
def pathStem (name : String) : String :=
  match lastDotIdx name.data with
  | some i => if 0 < i ∧ i + 1 < name.data.length then ⟨name.data.take i⟩ else name
  | none => name

/-- The candidate output names `extract_file` tries in order: first the
original name, then `stem_1suffix`, `stem_2suffix`, ... (lines 169-176). -/
def candName (stem suffix : String) : Nat → String
  | 0 => stem ++ suffix
  | k + 1 => stem ++ "_" ++ toString (k + 1) ++ suffix

/-- The collision-avoiding output name: the first candidate not already
present in the destination directory. The source's `while` loop always
terminates at the least free counter; the candidates are pairwise
distinct, so among the first `destFiles.length + 2` one is always free
and the fallback arm is unreachable. -/
def freeName (destFiles : List String) (name : String) : String :=
  let stem := pathStem name
  let suffix := pathSuffix name
  match (List.range (destFiles.length + 2)).find?
      (fun k => !(destFiles.contains (candName stem suffix k))) with
  | some k => candName stem suffix k
  | none => candName stem suffix (destFiles.length + 2)

/-- `print` output of the "entry not found" branch (line 147). -/
def entryNotFoundMsg (vault_id : String) : String :=
  "[VAULT] Entry " ++ vault_id ++ " not found in index"

/-- `print` output of the "vault file missing" branch (line 152). -/
def fileMissingMsg (vault_file : String) : String :=
  "[VAULT] Vault file missing: " ++ vault_file

/-- `print` output of the decryption-failure branch (line 159). -/
def decryptFailMsg : String := "[VAULT] Decryption failed — file may be corrupted"

/-- `print` output of the integrity-failure branch (line 166). -/
def integrityFailMsg : String := "[VAULT] INTEGRITY CHECK FAILED — file tampered!"

/-- What one `extract_file` call produced: the returned value (`none` on
failure), the files written to the destination directory, and the
messages printed. -/
structure ExtractResult where
  result : Option String
  written : List (String × Bytes)
  log : List String
  deriving DecidableEq, Repr

/-- `extract_file(vault_id, destination_dir)` (lines 139-183).
`vaultFiles` holds the files of `VAULT_DIR` (name and ciphertext) and
`destFiles` the names already present in the destination directory. -/
def extract_file (decryptF : Bytes → Option Bytes) (hashHex : Bytes → String)
    (index : List (String × Meta)) (vaultFiles : List (String × Bytes))
    (destFiles : List String) (vault_id : String) : ExtractResult :=
  match dictGet index vault_id with
  | none => ⟨none, [], [entryNotFoundMsg vault_id]⟩
  | some meta =>
    match dictGet vaultFiles meta.vault_file with
    | none => ⟨none, [], [fileMissingMsg meta.vault_file]⟩
    | some ciphertext =>
      match decryptF ciphertext with
      | none => ⟨none, [], [decryptFailMsg]⟩
      | some plaintext =>
        let actual_hash := hashHex plaintext
        let expected_hash := meta.sha256.getD ""
        if expected_hash ≠ "" ∧ actual_hash ≠ expected_hash then
          ⟨none, [], [integrityFailMsg]⟩
        else
          let out := freeName destFiles meta.original_name
          ⟨some out, [(out, plaintext)], []⟩

end VaultManager

namespace VaultManager

/-- **C3 as stated is false**: at a concrete entry whose ciphertext
decrypts but whose recomputed hash differs from the stored one,
`extract_file` returns `none` — the very value a decryption failure
returns — so the returned failure is not distinguishable from a
decryption failure. (Nothing is written in either case; only the printed
message differs.) -/
theorem privexi_c3_counterexample :
    (extract_file (fun c => some c) (fun _ => "H")
        [("v", ⟨"doc.txt", "f.enc", 0, 3, some "EXP"⟩)] [("f.enc", [1, 2, 3])]
        [] "v").result = none ∧
    (extract_file (fun _ => none) (fun _ => "H")
        [("v", ⟨"doc.txt", "f.enc", 0, 3, some "EXP"⟩)] [("f.enc", [1, 2, 3])]
        [] "v").result = none ∧
    (extract_file (fun c => some c) (fun _ => "H")
        [("v", ⟨"doc.txt", "f.enc", 0, 3, some "EXP"⟩)] [("f.enc", [1, 2, 3])]
        [] "v").result =
      (extract_file (fun _ => none) (fun _ => "H")
        [("v", ⟨"doc.txt", "f.enc", 0, 3, some "EXP"⟩)] [("f.enc", [1, 2, 3])]
        [] "v").result := by
  refine ⟨?_, ?_, ?_⟩ <;> rfl

/-- **C3 amended**: on an entry that decrypts but whose recomputed hash
differs from the (non-empty) stored hash, `extract_file` writes nothing
to the destination and fails; the integrity failure is reported distinctly
from a decryption failure only through the printed message — the returned
value is the same `none` as for a decryption failure. -/
theorem privexi_c3_integrity_mismatch
    (decryptF : Bytes → Option Bytes) (hashHex : Bytes → String)
    (index : List (String × Meta)) (vaultFiles : List (String × Bytes))
    (destFiles : List String) (vault_id : String) (meta : Meta) (ct pt : Bytes)
    (hm : dictGet index vault_id = some meta)
    (hf : dictGet vaultFiles meta.vault_file = some ct)
    (hd : decryptF ct = some pt)
    (hex : meta.sha256.getD "" ≠ "")
    (hne : hashHex pt ≠ meta.sha256.getD "") :
    extract_file decryptF hashHex index vaultFiles destFiles vault_id =
      ⟨none, [], [integrityFailMsg]⟩ ∧
    integrityFailMsg ≠ decryptFailMsg := by
  constructor
  · simp only [extract_file, hm, hf, hd]
    rw [if_pos ⟨hex, hne⟩]
  · decide

/-- Witness for C3 (amended): the concrete integrity-mismatch entry
above writes nothing, fails, and logs the integrity message. -/
theorem privexi_c3_witness :
    extract_file (fun c => some c) (fun _ => "H")
        [("v", ⟨"doc.txt", "f.enc", 0, 3, some "EXP"⟩)] [("f.enc", [1, 2, 3])]
        [] "v" = ⟨none, [], [integrityFailMsg]⟩ ∧
    integrityFailMsg ≠ decryptFailMsg :=
  privexi_c3_integrity_mismatch (fun c => some c) (fun _ => "H")
    [("v", ⟨"doc.txt", "f.enc", 0, 3, some "EXP"⟩)] [("f.enc", [1, 2, 3])]
    [] "v" ⟨"doc.txt", "f.enc", 0, 3, some "EXP"⟩ [1, 2, 3] [1, 2, 3]
    rfl rfl rfl (by decide) (by decide)

/-- **C9**: when the stored `"sha256"` field is absent or the empty
string, `extract_file` skips the integrity comparison entirely — the
outcome does not depend on the hash function at all — and writes the
decrypted plaintext to the destination. -/
theorem privexi_c9_absent_hash_skips_verification
    (decryptF : Bytes → Option Bytes) (hashHex : Bytes → String)
    (index : List (String × Meta)) (vaultFiles : List (String × Bytes))
    (destFiles : List String) (vault_id : String) (meta : Meta) (ct pt : Bytes)
    (hm : dictGet index vault_id = some meta)
    (hf : dictGet vaultFiles meta.vault_file = some ct)
    (hd : decryptF ct = some pt)
    (hex : meta.sha256.getD "" = "") :
    extract_file decryptF hashHex index vaultFiles destFiles vault_id =
      ⟨some (freeName destFiles meta.original_name),
        [(freeName destFiles meta.original_name, pt)], []⟩ ∧
    ∀ hashHex' : Bytes → String,
      extract_file decryptF hashHex' index vaultFiles destFiles vault_id =
        extract_file decryptF hashHex index vaultFiles destFiles vault_id := by
  have h : ∀ g : Bytes → String,
      extract_file decryptF g index vaultFiles destFiles vault_id =
        ⟨some (freeName destFiles meta.original_name),
          [(freeName destFiles meta.original_name, pt)], []⟩ := by
    intro g
    simp only [extract_file, hm, hf, hd]
    rw [if_neg (by simp [hex])]
  exact ⟨h hashHex, fun g => (h g).trans (h hashHex).symm⟩

/-- Witness for C9: concrete entries with an absent and with an empty
`"sha256"` field are both extracted without verification. -/
theorem privexi_c9_witness :
    extract_file (fun c => some c) (fun _ => "H")
        [("v", ⟨"doc.txt", "f.enc", 0, 3, none⟩)] [("f.enc", [1, 2, 3])]
        [] "v" = ⟨some "doc.txt", [("doc.txt", [1, 2, 3])], []⟩ ∧
    extract_file (fun c => some c) (fun _ => "H")
        [("v", ⟨"doc.txt", "f.enc", 0, 3, some ""⟩)] [("f.enc", [1, 2, 3])]
        [] "v" = ⟨some "doc.txt", [("doc.txt", [1, 2, 3])], []⟩ := by
  constructor
  · have h := privexi_c9_absent_hash_skips_verification (fun c => some c) (fun _ => "H")
      [("v", ⟨"doc.txt", "f.enc", 0, 3, none⟩)] [("f.enc", [1, 2, 3])]
      [] "v" ⟨"doc.txt", "f.enc", 0, 3, none⟩ [1, 2, 3] [1, 2, 3] rfl rfl rfl rfl
    rw [h.1]
    rfl
  · have h := privexi_c9_absent_hash_skips_verification (fun c => some c) (fun _ => "H")
      [("v", ⟨"doc.txt", "f.enc", 0, 3, some ""⟩)] [("f.enc", [1, 2, 3])]
      [] "v" ⟨"doc.txt", "f.enc", 0, 3, some ""⟩ [1, 2, 3] [1, 2, 3] rfl rfl rfl rfl
    rw [h.1]
    rfl

end VaultManager

namespace VaultManager

/-- On-disk location of the encrypted index
(`VAULT_INDEX = Path.home() / ".secure_vault" / ".vault_index"`). -/
def VAULT_INDEX_PATH : String := ".secure_vault/.vault_index"

/-- The file-system writes a persistence step may perform. -/
inductive IndexWriteOp where
  | writeFile (path : String) (contents : Bytes)
  | replaceFile (src dst : String)
  deriving DecidableEq, Repr

/-- `_save_index` (lines 68-72): serialize the index to JSON, encrypt it,
and write the ciphertext straight to the index file with a single
`Path.write_bytes` call. -/
def save_index_ops (encryptF : Bytes → Bytes)
    (serializeF : List (String × Meta) → Bytes)
    (index : List (String × Meta)) : List IndexWriteOp :=
  [.writeFile VAULT_INDEX_PATH (encryptF (serializeF index))]

/-- Modelled from the spec: "index writes are atomic: write to temp, then
replace" — a persistence of ciphertext `ct` is atomic when it writes `ct`
to some temporary file distinct from the index file and then replaces the
index file with it. (`_save_index` itself is in `src/`; this predicate
only restates the spec's sentence for comparison.) -/
def atomicIndexWriteSpec (ops : List IndexWriteOp) (ct : Bytes) : Prop :=
  ∃ tmp, tmp ≠ VAULT_INDEX_PATH ∧
    ops = [.writeFile tmp ct, .replaceFile tmp VAULT_INDEX_PATH]

/-- **C4 as stated is false**: at a concrete index state, the write
sequence `_save_index` performs is not of the write-temp-then-replace
shape — it is a single direct write to the index file. -/
theorem privexi_c4_counterexample :
    ¬ atomicIndexWriteSpec (save_index_ops (fun b => b) (fun _ => [1]) []) [1] := by
  rintro ⟨tmp, -, h⟩
  simp [save_index_ops] at h

/-- **C4 amended**: every persistence of the vault index writes the new
encrypted index directly to the index file in a single write call; no
temporary file and no replace step are involved, so the write is not
atomic in the write-temp-then-replace sense. -/
theorem privexi_c4_save_index_direct_write
    (encryptF : Bytes → Bytes) (serializeF : List (String × Meta) → Bytes)
    (index : List (String × Meta)) :
    save_index_ops encryptF serializeF index =
      [.writeFile VAULT_INDEX_PATH (encryptF (serializeF index))] ∧
    ∀ ct, ¬ atomicIndexWriteSpec (save_index_ops encryptF serializeF index) ct := by
  refine ⟨rfl, fun ct => ?_⟩
  rintro ⟨tmp, -, h⟩
  simp [save_index_ops] at h

/-- The storage-engine state `add_file` updates, plus whether the source
file was (securely) wiped. -/
structure AddState where
  index : List (String × Meta)
  vaultFiles : List (String × Bytes)
  indexFile : Option Bytes
  sourceWiped : Bool
  deriving DecidableEq, Repr

/-- `add_file(source_path, secure_wipe_original)` (lines 76-116):
hash the plaintext, encrypt it, derive `vault_stem` as the SHA-256 hex
digest of `original_name + str(time.time())` (parameter `sha256hex`
applied to `source_name ++ now`), write the ciphertext to
`<stem>.enc` (overwriting any existing file of that name), store the
entry under `vault_id = stem[:16]` with plain dict assignment
(overwriting any existing entry), persist the index, optionally wipe the
source, and return `True`. `now2` is the second `time.time()` call, the
one recorded in `added_at`. -/
def add_file (encryptF : Bytes → Bytes) (hashHex : Bytes → String)
    (sha256hex : String → String) (serializeF : List (String × Meta) → Bytes)
    (st : AddState) (source_name : String) (source_content : Bytes)
    (now : String) (now2 : Nat) (secure_wipe_original : Bool) : AddState × Bool :=
  let plaintext := source_content
  let sha256 := hashHex plaintext
  let ciphertext := encryptF plaintext
  let vault_stem := sha256hex (source_name ++ now)
  let vault_file := vault_stem ++ ".enc"
  let vaultFiles' := dictPut st.vaultFiles vault_file ciphertext
  let vault_id := vault_stem.take 16
  let meta : Meta := ⟨source_name, vault_file, now2, plaintext.length, some sha256⟩
  let index' := dictPut st.index vault_id meta
  let indexFile' := some (encryptF (serializeF index'))
  ({ index := index', vaultFiles := vaultFiles', indexFile := indexFile',
     sourceWiped := st.sourceWiped || secure_wipe_original }, true)

/-- **C5 as stated is false**: at a concrete state whose index already
holds the derived `vault_id` (and whose vault directory already holds the
derived storage filename), `add_file` does not fail — it returns `True`
and silently replaces both the existing index entry and the backing
file. -/
theorem privexi_c5_counterexample :
    (add_file (fun b => b) (fun _ => "h2") (fun _ => "S") (fun _ => [])
      ⟨[("S", ⟨"old.txt", "S.enc", 0, 1, some "h"⟩)], [("S.enc", [0])], none, false⟩
      "new.txt" [5, 6] "t" 7 false).2 = true ∧
    dictGet (add_file (fun b => b) (fun _ => "h2") (fun _ => "S") (fun _ => [])
      ⟨[("S", ⟨"old.txt", "S.enc", 0, 1, some "h"⟩)], [("S.enc", [0])], none, false⟩
      "new.txt" [5, 6] "t" 7 false).1.index "S" =
        some ⟨"new.txt", "S.enc", 7, 2, some "h2"⟩ ∧
    (⟨"new.txt", "S.enc", 7, 2, some "h2"⟩ : Meta) ≠ ⟨"old.txt", "S.enc", 0, 1, some "h"⟩ ∧
    dictGet (add_file (fun b => b) (fun _ => "h2") (fun _ => "S") (fun _ => [])
      ⟨[("S", ⟨"old.txt", "S.enc", 0, 1, some "h"⟩)], [("S.enc", [0])], none, false⟩
      "new.txt" [5, 6] "t" 7 false).1.vaultFiles "S.enc" = some [5, 6] := by
  refine ⟨rfl, rfl, by decide, rfl⟩

/-- **C5 amended**: `add_file` performs no collision check: when the
derived `vault_id` already names an index entry, it returns success and
silently overwrites that entry (and, when the derived storage filename
already exists, the backing file) with the new data. -/
theorem privexi_c5_collision_overwrites
    (encryptF : Bytes → Bytes) (hashHex : Bytes → String)
    (sha256hex : String → String) (serializeF : List (String × Meta) → Bytes)
    (st : AddState) (source_name : String) (source_content : Bytes)
    (now : String) (now2 : Nat) (wipe : Bool) (oldMeta : Meta)
    (hcollision : dictGet st.index ((sha256hex (source_name ++ now)).take 16) =
      some oldMeta) :
    (add_file encryptF hashHex sha256hex serializeF st source_name source_content
      now now2 wipe).2 = true ∧
    dictGet (add_file encryptF hashHex sha256hex serializeF st source_name
        source_content now now2 wipe).1.index
      ((sha256hex (source_name ++ now)).take 16) =
      some ⟨source_name, sha256hex (source_name ++ now) ++ ".enc", now2,
        source_content.length, some (hashHex source_content)⟩ ∧
    dictGet (add_file encryptF hashHex sha256hex serializeF st source_name
        source_content now now2 wipe).1.vaultFiles
      (sha256hex (source_name ++ now) ++ ".enc") = some (encryptF source_content) := by
  refine ⟨rfl, ?_, ?_⟩
  · simp only [add_file]
    exact dictGet_dictPut _ _ _
  · simp only [add_file]
    exact dictGet_dictPut _ _ _

/-- Witness for C5 (amended): the concrete colliding add above succeeds
and rebinds the entry and the backing file. -/
theorem privexi_c5_witness :
    (add_file (fun b => b) (fun _ => "h2") (fun _ => "S") (fun _ => [])
      ⟨[("S", ⟨"old.txt", "S.enc", 0, 1, some "h"⟩)], [("S.enc", [0])], none, false⟩
      "new.txt" [5, 6] "t" 7 true).2 = true ∧
    dictGet (add_file (fun b => b) (fun _ => "h2") (fun _ => "S") (fun _ => [])
      ⟨[("S", ⟨"old.txt", "S.enc", 0, 1, some "h"⟩)], [("S.enc", [0])], none, false⟩
      "new.txt" [5, 6] "t" 7 true).1.index "S" =
        some ⟨"new.txt", "S.enc", 7, 2, some "h2"⟩ ∧
    dictGet (add_file (fun b => b) (fun _ => "h2") (fun _ => "S") (fun _ => [])
      ⟨[("S", ⟨"old.txt", "S.enc", 0, 1, some "h"⟩)], [("S.enc", [0])], none, false⟩
      "new.txt" [5, 6] "t" 7 true).1.vaultFiles "S.enc" = some [5, 6] :=
  privexi_c5_collision_overwrites (fun b => b) (fun _ => "h2") (fun _ => "S")
    (fun _ => []) ⟨[("S", ⟨"old.txt", "S.enc", 0, 1, some "h"⟩)], [("S.enc", [0])],
      none, false⟩ "new.txt" [5, 6] "t" 7 true ⟨"old.txt", "S.enc", 0, 1, some "h"⟩ rfl

end VaultManager

namespace Encryption

/-! Embedding of `secure_delete` from `src/privexi/encryption.py`
(lines 64-79). The function's behaviour is modelled as the sequence of
primitive file operations it performs; `secrets.token_bytes(size)` is a
parameter `rand` giving each pass's random data, and an oracle
`ok : Nat → Bool` says whether the n-th primitive operation succeeds or
raises. -/

/-- The primitive operations `secure_delete` performs. -/
inductive SdOp where
  | stat
  | seek
  | writePass (p : Nat)
  | flush
  | fsync
  | unlinkDone
  | unlinkFallback
  deriving DecidableEq, Repr

/-- One iteration of the overwrite loop (lines 68-72): `f.seek(0)`,
`f.write(secrets.token_bytes(size))`, `f.flush()`,
`os.fsync(f.fileno())`. -/
def sdPassOps (p : Nat) : List SdOp :=
  [.seek, .writePass p, .flush, .fsync]

/-- The whole `try` block: `path.stat()`, then `passes` overwrite
iterations, then `path.unlink()`. -/
def sdTryOps (passes : Nat) : List SdOp :=
  .stat :: ((List.range passes).flatMap sdPassOps ++ [.unlinkDone])

/-- The operations actually performed: the `try` block runs until its
first failing operation; if one fails, the `except` handler still
attempts `path.unlink()` as a fallback (lines 74-79). -/
def secure_delete_trace (ok : Nat → Bool) (passes : Nat) : List SdOp :=
  let ops := sdTryOps passes
  match (List.range ops.length).find? (fun i => !ok i) with
  | none => ops
  | some i => ops.take i ++ [.unlinkFallback]

/-- File state threaded through the operations: OS-buffered contents,
contents forced to stable storage, the log of successive `fsync`ed
contents, and whether the file is still linked. -/
structure SdFile where
  mem : Bytes
  stable : Bytes
  syncLog : List Bytes
  linked : Bool
  deriving DecidableEq, Repr

/-- Semantics of one primitive operation. A `writePass p` writes
`rand p` from offset 0 (the preceding `seek`), which replaces the whole
contents when `rand p` has the file's size. -/
def sdStep (rand : Nat → Bytes) (f : SdFile) : SdOp → SdFile
  | .stat => f
  | .seek => f
  | .writePass p => { f with mem := rand p }
  | .flush => f
  | .fsync => { f with stable := f.mem, syncLog := f.syncLog ++ [f.mem] }
  | .unlinkDone => { f with linked := false }
  | .unlinkFallback => { f with linked := false }

/-- Running `secure_delete` over a file state. -/
def secure_delete_run (rand : Nat → Bytes) (ok : Nat → Bool) (passes : Nat)
    (f0 : SdFile) : SdFile :=
  (secure_delete_trace ok passes).foldl (sdStep rand) f0

/-- **C8**: with the default 3 passes, a fault-free `secure_delete`
performs exactly the ordered sequence stat, then three rounds of
seek-write-flush-fsync — so each pass overwrites the full byte range with
fresh random data and is forced to stable storage before the next — and
then unlinks the file; and whenever any operation fails, the unlink is
still attempted as the fallback. -/
theorem privexi_c8_secure_delete
    (rand : Nat → Bytes) (ok : Nat → Bool) (size : Nat) (f0 : SdFile)
    (hr : ∀ p, (rand p).length = size) (hlog : f0.syncLog = []) :
    ((∀ i, i < (sdTryOps 3).length → ok i = true) →
      secure_delete_trace ok 3 = sdTryOps 3 ∧
      sdTryOps 3 = [.stat, .seek, .writePass 0, .flush, .fsync,
        .seek, .writePass 1, .flush, .fsync,
        .seek, .writePass 2, .flush, .fsync, .unlinkDone] ∧
      (secure_delete_run rand ok 3 f0).syncLog = [rand 0, rand 1, rand 2] ∧
      (∀ p, (rand p).length = size) ∧
      (secure_delete_run rand ok 3 f0).stable = rand 2 ∧
      (secure_delete_run rand ok 3 f0).linked = false) ∧
    ((∃ i, i < (sdTryOps 3).length ∧ ok i = false) →
      SdOp.unlinkFallback ∈ secure_delete_trace ok 3) := by
  constructor
  · intro hok
    have hfind : ((List.range (sdTryOps 3).length).find? (fun i => !ok i)) = none := by
      rw [List.find?_eq_none]
      intro x hx
      rw [List.mem_range] at hx
      simp [hok x hx]
    have htrace : secure_delete_trace ok 3 = sdTryOps 3 := by
      simp only [secure_delete_trace, hfind]
    refine ⟨htrace, by rfl, ?_, hr, ?_, ?_⟩ <;>
      simp [secure_delete_run, htrace, sdTryOps, sdPassOps, sdStep,
        List.range_succ, hlog]
  · rintro ⟨i, hi, hfail⟩
    have hsome : ((List.range (sdTryOps 3).length).find? (fun i => !ok i)).isSome := by
      rw [List.find?_isSome]
      exact ⟨i, List.mem_range.mpr hi, by simp [hfail]⟩
    obtain ⟨j, hj⟩ := Option.isSome_iff_exists.mp hsome
    simp only [secure_delete_trace, hj]
    exact List.mem_append_right _ (by simp)

/-- Witness for C8: a concrete two-byte file; the fault-free run
overwrites three times and unlinks, and a run whose fsync of the first
pass fails still attempts the fallback unlink. -/
theorem privexi_c8_witness :
    (secure_delete_run (fun p => [p, p]) (fun _ => true) 3
        ⟨[9, 9], [9, 9], [], true⟩).syncLog = [[0, 0], [1, 1], [2, 2]] ∧
    (secure_delete_run (fun p => [p, p]) (fun _ => true) 3
        ⟨[9, 9], [9, 9], [], true⟩).linked = false ∧
    SdOp.unlinkFallback ∈ secure_delete_trace (fun i => decide (i ≠ 4)) 3 := by
  have h1 := privexi_c8_secure_delete (fun p => [p, p]) (fun _ => true) 2
    ⟨[9, 9], [9, 9], [], true⟩ (fun p => rfl) rfl
  have h2 := privexi_c8_secure_delete (fun p => [p, p]) (fun i => decide (i ≠ 4)) 2
    ⟨[9, 9], [9, 9], [], true⟩ (fun p => rfl) rfl
  have ha := h1.1 (fun i _ => rfl)
  refine ⟨ha.2.2.1, ha.2.2.2.2.2, h2.2 ⟨4, by decide, by decide⟩⟩

end Encryption

namespace MainWindow

/-! Embedding of the unlock/lockout logic of
`src/privexi/ui/main_window.py` (lines 23-25 and 138-187). The outcome of
`load_usb_key` is abstracted to a boolean `secretCorrect` (`True` when it
returns a master key); the 30-second `QTimer.singleShot` scheduled by
`_trigger_lockout` is modelled as an explicit lockout-expiry event
(`end_lockout`). -/

def MAX_FAILED_ATTEMPTS : Nat := 5

def AUTO_LOCK_SECONDS : Nat := 300

def LOCKOUT_SECONDS : Nat := 30

/-- The session fields `_on_unlock_requested` reads and writes. -/
structure SessionState where
  usbPresent : Bool
  failedAttempts : Nat
  lockedOut : Bool
  unlocked : Bool
  deriving DecidableEq, Repr

/-- What one unlock request reported back to the login screen. -/
inductive UnlockOutcome where
  | rejectedLockedOut
  | rejectedNoUsb
  | wrongSecret (remaining : Nat)
  | lockoutTriggered
  | unlockedOk
  deriving DecidableEq, Repr

/-- `_on_unlock_requested(secret, is_recovery)` (lines 138-175): a
locked-out session rejects immediately (before the USB check and before
`load_usb_key` is ever called); a missing USB rejects; a wrong secret
increments `_failed_attempts` and triggers the lockout at the threshold;
a correct secret resets the counters and unlocks. -/
def on_unlock_requested (s : SessionState) (secretCorrect : Bool) :
    SessionState × UnlockOutcome :=
  if s.lockedOut then (s, .rejectedLockedOut)
  else if !s.usbPresent then (s, .rejectedNoUsb)
  else if !secretCorrect then
    let fa := s.failedAttempts + 1
    if MAX_FAILED_ATTEMPTS ≤ fa then
      ({ s with failedAttempts := fa, lockedOut := true }, .lockoutTriggered)
    else
      ({ s with failedAttempts := fa }, .wrongSecret (MAX_FAILED_ATTEMPTS - fa))
  else
    ({ s with failedAttempts := 0, lockedOut := false, unlocked := true }, .unlockedOk)

/-- `_end_lockout` (lines 183-187), run when the `LOCKOUT_SECONDS` timer
fires: clears the lockout flag and resets `_failed_attempts` to 0. -/
def end_lockout (s : SessionState) : SessionState :=
  { s with lockedOut := false, failedAttempts := 0 }

/-- The state after a sequence of unlock attempts. -/
def runAttempts (s : SessionState) (cs : List Bool) : SessionState :=
  cs.foldl (fun t c => (on_unlock_requested t c).1) s

/-- While the lockout flag is set, attempts change nothing. -/
theorem runAttempts_lockedOut (t : SessionState) (h : t.lockedOut = true) :
    ∀ cs : List Bool, runAttempts t cs = t := by
  intro cs
  induction cs with
  | nil => rfl
  | cons c cs ih =>
    show runAttempts (on_unlock_requested t c).1 cs = t
    rw [show (on_unlock_requested t c).1 = t by simp [on_unlock_requested, h]]
    exact ih

/-- **C2**: from a fresh session (USB present, no failures, not locked
out), 5 consecutive failed unlock attempts set the lockout; while it is
set, every unlock attempt — with the correct secret included — is
rejected with the same outcome without the secret being evaluated and
without any state change, so no sequence of attempts makes progress;
when the 30-second window elapses, `failed_attempts` is reset to 0 and a
correct secret unlocks. -/
theorem privexi_c2_lockout (s : SessionState) (hu : s.usbPresent = true)
    (hl : s.lockedOut = false) (hf : s.failedAttempts = 0) :
    (runAttempts s (List.replicate 5 false)).lockedOut = true ∧
    (runAttempts s (List.replicate 5 false)).failedAttempts = 5 ∧
    (∀ t : SessionState, t.lockedOut = true → ∀ c,
      on_unlock_requested t c = (t, .rejectedLockedOut)) ∧
    (∀ cs, runAttempts (runAttempts s (List.replicate 5 false)) cs =
      runAttempts s (List.replicate 5 false)) ∧
    (end_lockout (runAttempts s (List.replicate 5 false))).failedAttempts = 0 ∧
    (end_lockout (runAttempts s (List.replicate 5 false))).lockedOut = false ∧
    (on_unlock_requested (end_lockout (runAttempts s (List.replicate 5 false)))
      true).2 = .unlockedOk ∧
    (on_unlock_requested (end_lockout (runAttempts s (List.replicate 5 false)))
      true).1.unlocked = true ∧
    MAX_FAILED_ATTEMPTS = 5 ∧ LOCKOUT_SECONDS = 30 := by
  obtain ⟨su, sf, sl, sn⟩ := s
  simp only at hu hl hf
  subst hu hl hf
  have h5 : runAttempts ⟨true, 0, false, sn⟩ (List.replicate 5 false) =
      ⟨true, 5, true, sn⟩ := by
    simp [runAttempts, List.replicate, on_unlock_requested, MAX_FAILED_ATTEMPTS]
  have hrej : ∀ t : SessionState, t.lockedOut = true → ∀ c,
      on_unlock_requested t c = (t, .rejectedLockedOut) := by
    intro t ht c
    simp [on_unlock_requested, ht]
  refine ⟨by rw [h5], by rw [h5], hrej, ?_, by rw [h5]; rfl, by rw [h5]; rfl,
    ?_, ?_, rfl, rfl⟩
  · intro cs
    rw [h5]
    exact runAttempts_lockedOut _ rfl cs
  · rw [h5]
    rfl
  · rw [h5]
    rfl

/-- Witness for C2: a concrete fresh session locks out after 5 failures,
rejects a correct attempt during the window, and accepts it after the
window with the counter reset. -/
theorem privexi_c2_witness :
    (runAttempts ⟨true, 0, false, false⟩ (List.replicate 5 false)).lockedOut = true ∧
    on_unlock_requested (runAttempts ⟨true, 0, false, false⟩ (List.replicate 5 false))
      true = (runAttempts ⟨true, 0, false, false⟩ (List.replicate 5 false),
        .rejectedLockedOut) ∧
    (end_lockout (runAttempts ⟨true, 0, false, false⟩
      (List.replicate 5 false))).failedAttempts = 0 ∧
    (on_unlock_requested (end_lockout (runAttempts ⟨true, 0, false, false⟩
      (List.replicate 5 false))) true).2 = .unlockedOk :=
  have h := privexi_c2_lockout ⟨true, 0, false, false⟩ rfl rfl rfl
  ⟨h.1, h.2.2.1 _ h.1 true, h.2.2.2.2.1, h.2.2.2.2.2.2.1⟩

end MainWindow
